import Mathlib

/-!
Verification development for the `cli` argument-parsing library.

The Go sources are embedded shallowly:

* `parse.go` — `parseIter`, `splitShortOptions`, `isSplittable`;
* `flag_int.go` / `flag_uint.go` / `flag_float64.go` / `flag_duration.go` /
  `flag_uint_slice.go` — the per-type flag structs, their `TakesValue` and
  `Apply` methods, and the `UintSlice` container with `Set`/`Serialize`;
* the parts of Go's standard library the code drives: `flag.FlagSet.Parse`
  restricted to boolean-valued flags (the only kind the parsing claims
  exercise), `strconv.ParseUint` / `ParseInt` / `ParseBool`, `strings`
  helpers, and `encoding/json` marshalling of `[]uint`.

Go strings are modelled as `List Char` (all inputs under test are ASCII, so
byte indexing and rune iteration agree); Go machine integers as `Nat`/`Int`
with explicit range checks where the source performs them; fallible calls
return `Option`/`Except`.  Helpers whose source file is not part of the
extract (`flagFromEnvOrFile`, `flagNames`, `slPfx`) are modelled from the
specification and say so in their doc comments.
-/

/-- Go `string`, as a list of characters (ASCII inputs only). -/
abbrev GoStr := List Char

/-- Shorthand turning a Lean string literal into a `GoStr`. -/
def gs (s : String) : GoStr := s.data

/-- Go `strings.HasPrefix(s, pre)`. -/
def hasPref : GoStr → GoStr → Bool
  | _, [] => true
  | [], _ :: _ => false
  | c :: cs, p :: ps => c == p && hasPref cs ps

/-- Go `strings.TrimPrefix(s, pre)`: drops `pre` when it is a leading
segment of `s`, otherwise returns `s` unchanged. -/
def trimPref (s pre : GoStr) : GoStr :=
  if hasPref s pre then s.drop pre.length else s

/-- Go `strings.Replace(s, old, new, 1)` for a non-empty `old`: replaces the
first occurrence of `old` in `s`. -/
def replaceOnce : GoStr → GoStr → GoStr → GoStr
  | [], _, _ => []
  | c :: cs, old, new =>
    if hasPref (c :: cs) old then new ++ (c :: cs).drop old.length
    else c :: replaceOnce cs old new

/-- ASCII decimal digit test (`'0' ≤ c ≤ '9'`). -/
def isDigit (c : Char) : Bool := 48 ≤ c.toNat && c.toNat ≤ 57

/-- Whitespace characters recognised by the model of `strings.TrimSpace`
(the ASCII subset of Go's `unicode.IsSpace`). -/
def isSpaceChar (c : Char) : Bool :=
  c == ' ' || c == '\t' || c == '\n' || c == '\r'

/-- Go `strings.TrimSpace`, restricted to ASCII whitespace. -/
def goTrimSpace (s : GoStr) : GoStr :=
  ((s.dropWhile isSpaceChar).reverse.dropWhile isSpaceChar).reverse

/-- Go `strings.Split(s, ",")`. -/
def splitComma : GoStr → List GoStr
  | [] => [[]]
  | c :: r =>
    if c = ',' then [] :: splitComma r
    else
      match splitComma r with
      | g :: gsr => (c :: g) :: gsr
      | [] => [[c]]

/-- Decimal value of a digit string, accumulator style, mirroring the digit
loops of Go's `strconv` parsing. -/
def parseDigits (ds : GoStr) : Nat :=
  ds.foldl (fun a c => a * 10 + (c.toNat - 48)) 0

/-- Go `strconv.ParseUint(s, 10, 64)` as a partial function: a non-empty
all-digit string whose value fits in 64 bits. -/
def parseUint (s : GoStr) : Option Nat :=
  match s with
  | [] => none
  | _ =>
    if s.all isDigit then
      if parseDigits s < 2 ^ 64 then some (parseDigits s) else none
    else none

/-- Magnitude part of `strconv.ParseInt`: a non-empty all-digit string. -/
def parseIntMag (s : GoStr) : Option Nat :=
  match s with
  | [] => none
  | _ => if s.all isDigit then some (parseDigits s) else none

/-- Go `strconv.ParseInt(s, 10, 64)`: optional sign, digits, 64-bit signed
range check. -/
def parseInt (s : GoStr) : Option Int :=
  match s with
  | [] => none
  | c :: r =>
    if c = '+' then
      (parseIntMag r).bind fun n =>
        if n ≤ 2 ^ 63 - 1 then some (n : Int) else none
    else if c = '-' then
      (parseIntMag r).bind fun n =>
        if n ≤ 2 ^ 63 then some (-(n : Int)) else none
    else
      (parseIntMag s).bind fun n =>
        if n ≤ 2 ^ 63 - 1 then some (n : Int) else none

/-- Go `strconv.ParseBool`. -/
def parseBool (s : GoStr) : Option Bool :=
  if s ∈ [gs "1", gs "t", gs "T", gs "TRUE", gs "true", gs "True"] then some true
  else if s ∈ [gs "0", gs "f", gs "F", gs "FALSE", gs "false", gs "False"] then some false
  else none

/-- Wrap a string in double quotes, modelling `fmt`'s `%q` verb on the
escape-free strings the tests use. -/
def quoteStr (s : GoStr) : GoStr := '"' :: (s ++ ['"'])

/-- Errors produced by the model of `flag.FlagSet.Parse` (Go's standard
library `flag` package). -/
inductive GoError where
  | notDefined (name : GoStr)
  | badSyntax (tok : GoStr)
  | invalidBool (v : GoStr) (name : GoStr)
  | help
deriving DecidableEq

/-- The `Error()` rendering of each parse error, with the exact literals of
Go's `flag` package (`flag.go`: `failf("flag provided but not defined: -%s",
name)` and friends). -/
def goErrString : GoError → GoStr
  | .notDefined name => gs "flag provided but not defined: -" ++ name
  | .badSyntax tok => gs "bad flag syntax: " ++ tok
  | .invalidBool v name =>
    gs "invalid boolean value " ++ quoteStr v ++ gs " for -" ++ name ++ gs ": invalid syntax"
  | .help => gs "flag: help requested"

/-- Model of Go's `flag.FlagSet`, restricted to boolean-valued flags (the
kind the short-option claims exercise): `formal` is the set of registered
names (each defaulting to `false`), `actual` records values assigned during
parsing. -/
structure FlagSet where
  formal : List GoStr
  actual : List (GoStr × Bool)
deriving DecidableEq

/-- Assign a parsed boolean to a flag, as `flag.Value.Set` followed by the
`actual` bookkeeping of `FlagSet.parseOne`. -/
def FlagSet.setVal (set : FlagSet) (name : GoStr) (b : Bool) : FlagSet :=
  { set with actual := (name, b) :: set.actual }

/-- `flag.FlagSet.Lookup(name) != nil`: whether `name` is registered. -/
def FlagSet.hasFlag (set : FlagSet) (name : GoStr) : Bool :=
  set.formal.contains name

/-- Current boolean value of a flag (`false` until assigned, matching the
zero default the model registers every flag with). -/
def FlagSet.getBool (set : FlagSet) (name : GoStr) : Bool :=
  match set.actual.find? (fun p => p.1 == name) with
  | some p => p.2
  | none => false

/-- Split a token at its first `=`, as the value-detection loop of
`FlagSet.parseOne` (a leading `=` has already been rejected as bad syntax,
so starting the scan at index 0 agrees with Go's scan from index 1). -/
def splitAtEq : GoStr → GoStr × Option GoStr
  | [] => ([], none)
  | c :: r =>
    if c = '=' then ([], some r)
    else
      match splitAtEq r with
      | (a, b) => (c :: a, b)

/-- Model of `flag.FlagSet.Parse` for boolean flags: repeatedly consume one
flag token per `parseOne` step; stop (leaving positional arguments) at the
first token that is not a flag or at a bare `--`; report unknown names,
bad syntax, and invalid boolean values exactly as the library does.  The
pair returned is the (possibly partially) updated set plus the error. -/
def goParse (set : FlagSet) : List GoStr → FlagSet × Option GoError
  | [] => (set, none)
  | s :: rest =>
    match s with
    | [] => (set, none)
    | [_] => (set, none)
    | c0 :: c1 :: srest =>
      if c0 ≠ '-' then (set, none)
      else if c1 = '-' ∧ srest = [] then (set, none)
      else
        let name0 := if c1 = '-' then srest else c1 :: srest
        match name0 with
        | [] => (set, some (.badSyntax s))
        | n0 :: _ =>
          if n0 = '-' ∨ n0 = '=' then (set, some (.badSyntax s))
          else
            match splitAtEq name0 with
            | (name, val?) =>
              if set.hasFlag name then
                match val? with
                | some v =>
                  match parseBool v with
                  | some b => goParse (set.setVal name b) rest
                  | none => (set, some (.invalidBool v name))
                | none => goParse (set.setVal name true) rest
              else if name = gs "help" ∨ name = gs "h" then (set, some .help)
              else (set, some (.notDefined name))

/-- `isSplittable` from `parse.go`: single-dash, not double-dash, length
strictly greater than 2. -/
def isSplittable (flagArg : GoStr) : Bool :=
  hasPref flagArg (gs "-") && !hasPref flagArg (gs "--") && decide (flagArg.length > 2)

/-- The `shortFlagsExists` closure of `splitShortOptions`: every character
after the dash names a registered flag. -/
def shortFlagsExists (set : FlagSet) (s : GoStr) : Bool :=
  (s.drop 1).all fun c => set.hasFlag [c]

/-- `splitShortOptions` from `parse.go`: decompose `-it` into `[-i, -t]`
when the token is splittable and every character names a known flag,
otherwise return the token unchanged as a singleton. -/
def splitShortOptions (set : FlagSet) (arg : GoStr) : List GoStr :=
  if !isSplittable arg || !shortFlagsExists set arg then [arg]
  else (arg.drop 1).map fun c => ['-', c]

/-- Outcome of the scan-and-substitute loop inside `parseIter`:
the offending token was found and split, found but unsplittable
(`len(shortOpts) == 1`), or never found (`argsWereSplit` stays false). -/
inductive SplitRes where
  | notFound
  | noSplit
  | split (newArgs : List GoStr)
deriving DecidableEq

/-- The `for i, arg := range args` loop of `parseIter`: find the first
token whose dash-trimmed text equals the name extracted from the error,
and substitute its split in place. -/
def findAndSplit (set : FlagSet) (trimmed : GoStr) : List GoStr → SplitRes
  | [] => .notFound
  | a :: rest =>
    if trimPref a (gs "-") = trimmed then
      if (splitShortOptions set a).length = 1 then .noSplit
      else .split (splitShortOptions set a ++ rest)
    else
      match findAndSplit set trimmed rest with
      | .split ns => .split (a :: ns)
      | .noSplit => .noSplit
      | .notFound => .notFound

/-- Number of tokens in an argument list that are still candidates for
short-option splitting. -/
def countSplittable (args : List GoStr) : Nat :=
  args.countP fun a => isSplittable a

/-- The unrecoverable-error prefix `parseIter` matches against, exactly as
written in `parse.go` (note `default`, not `defined`). -/
def defaultPfx : GoStr := gs "flag provided but not default: -"

/-- The `iterativeParser` interface of `parse.go`: whether short-option
handling is on, and the fresh `FlagSet` that `newFlagSet()` rebuilds from
the unchanging flag definitions on each retry. -/
structure IterativeParser where
  useShortOptionHandling : Bool
  newFlagSet : Except GoError FlagSet

/-- `parseIter` from `parse.go`: parse, and when short-option handling is on
and the error message carries the expected prefix, split the offending
bundled token and retry on a rebuilt `FlagSet`; in shell-completion mode a
plain failure (or success) is reported as success.  Returns the final set
together with the returned error. -/
def parseIter (set : FlagSet) (ip : IterativeParser) (args : List GoStr)
    (shellComplete : Bool) : FlagSet × Option GoError :=
  match goParse set args with
  | (set1, none) => (set1, none)
  | (set1, some err) =>
    if ip.useShortOptionHandling = false then
      if shellComplete then (set1, none) else (set1, some err)
    else
      if goErrString err = trimPref (goErrString err) defaultPfx then (set1, some err)
      else
        match hs : findAndSplit set1 (trimPref (goErrString err) defaultPfx) args with
        | .noSplit => (set1, some err)
        | .notFound => (set1, some err)
        | .split newArgs =>
          match ip.newFlagSet with
          | .error e => (set1, some e)
          | .ok newSet => parseIter newSet ip newArgs shellComplete
termination_by countSplittable args
decreasing_by
  have hsingle : ∀ (st : FlagSet) (a : GoStr), (splitShortOptions st a).length ≠ 1 →
      isSplittable a = true ∧ splitShortOptions st a = (a.drop 1).map fun c => ['-', c] := by
    intro st a hne
    by_cases hsp : isSplittable a = true
    · by_cases hex : shortFlagsExists st a = true
      · exact ⟨hsp, by simp [splitShortOptions, hsp, hex]⟩
      · exact absurd (by simp [splitShortOptions, hsp, hex] :
          (splitShortOptions st a).length = 1) hne
    · exact absurd (by simp [splitShortOptions, hsp] :
        (splitShortOptions st a).length = 1) hne
  have key : ∀ (st : FlagSet) (tr : GoStr) (as2 na : List GoStr),
      findAndSplit st tr as2 = .split na → countSplittable na < countSplittable as2 := by
    intro st tr as2
    induction as2 with
    | nil => intro na h; simp [findAndSplit] at h
    | cons a rest ih =>
      intro na h
      rw [findAndSplit] at h
      by_cases hm : trimPref a (gs "-") = tr
      · rw [if_pos hm] at h
        by_cases hl : (splitShortOptions st a).length = 1
        · rw [if_pos hl] at h; cases h
        · rw [if_neg hl] at h
          cases h
          obtain ⟨hsp, heq⟩ := hsingle st a hl
          have hzero : countSplittable (splitShortOptions st a) = 0 := by
            rw [countSplittable, List.countP_eq_zero]
            intro t ht
            rw [heq] at ht
            obtain ⟨c, _, rfl⟩ := List.mem_map.mp ht
            simp [isSplittable]
          calc countSplittable (splitShortOptions st a ++ rest)
              = countSplittable (splitShortOptions st a) + countSplittable rest := by
                simp [countSplittable, List.countP_append]
            _ = countSplittable rest := by rw [hzero]; omega
            _ < countSplittable (a :: rest) := by
                simp [countSplittable, List.countP_cons, hsp]
      · rw [if_neg hm] at h
        cases hr : findAndSplit st tr rest with
        | notFound => rw [hr] at h; cases h
        | noSplit => rw [hr] at h; cases h
        | split ns =>
          rw [hr] at h
          cases h
          have hlt := ih ns hr
          simp only [countSplittable, List.countP_cons] at hlt ⊢
          omega
  exact key _ _ _ _ hs

def fsNone : FlagSet := ⟨[], []⟩

def fsI : FlagSet := ⟨[gs "i"], []⟩

def ipI : IterativeParser := ⟨true, .ok fsI⟩

def fsIT : FlagSet := ⟨[gs "i", gs "t"], []⟩

def ipIT : IterativeParser := ⟨true, .ok fsIT⟩

/-- Environment (or fallback-file system): an association of names to
contents. -/
abbrev EnvMap := List (GoStr × GoStr)

/-- First binding of a name in an `EnvMap`. -/
def lookupEnv (env : EnvMap) (k : GoStr) : Option GoStr :=
  (env.find? fun p => p.1 == k).map fun p => p.2

/-- Modelled from the spec: `flagFromEnvOrFile` (its source file is not in
the extract).  Scan `envVars` in order and let the first variable that is
both set and non-empty supply the raw text; otherwise, when `filePath` is
set and readable, its trimmed contents supply the raw text; otherwise no
raw text is obtained. -/
def flagFromEnvOrFile (envVars : List GoStr) (filePath : GoStr)
    (env files : EnvMap) : Option GoStr :=
  match envVars with
  | [] =>
    if filePath ≠ [] then (lookupEnv files filePath).map goTrimSpace else none
  | e :: rest =>
    match lookupEnv env e with
    | some v =>
      if v = [] then flagFromEnvOrFile rest filePath env files else some v
    | none => flagFromEnvOrFile rest filePath env files

/-- Modelled from the spec: `flagNames` (its source file is not in the
extract) — the primary name followed by the aliases. -/
def flagNames (name : GoStr) (aliases : List GoStr) : List GoStr :=
  name :: aliases

/-- A `strconv.NumError` (function name plus offending input). -/
structure NumErr where
  func : GoStr
  num : GoStr
deriving DecidableEq

/-- Rendering of a `strconv.NumError`. -/
def NumErr.errString (e : NumErr) : GoStr :=
  gs "strconv." ++ e.func ++ gs ": parsing " ++ quoteStr e.num ++ gs ": invalid syntax"

/-- The conversion error an `Apply` method returns when environment/file
text cannot be parsed. -/
structure ConvError where
  msg : GoStr
deriving DecidableEq

/-- Message of the `fmt.Errorf("could not parse %q as … value for flag %s:
%v", …)` calls shared by every `Apply`. -/
def convMsg (val what name errText : GoStr) : GoStr :=
  gs "could not parse " ++ quoteStr val ++ gs " as " ++ what ++
    gs " value for flag " ++ name ++ gs ": " ++ errText

/-- `IntFlag` from `flag_int.go`.  `Destination` models the pointer's
presence and target value. -/
structure IntFlag where
  Name : GoStr
  Aliases : List GoStr
  Usage : GoStr
  EnvVars : List GoStr
  FilePath : GoStr
  Required : Bool
  Hidden : Bool
  Value : Int
  DefaultText : GoStr
  Destination : Option Int
  HasBeenSet : Bool
deriving DecidableEq

/-- `UintFlag` from `flag_uint.go`. -/
structure UintFlag where
  Name : GoStr
  Aliases : List GoStr
  Usage : GoStr
  EnvVars : List GoStr
  FilePath : GoStr
  Required : Bool
  Hidden : Bool
  Value : Nat
  DefaultText : GoStr
  Destination : Option Nat
  HasBeenSet : Bool
deriving DecidableEq

/-- `Float64Flag` from `flag_float64.go`. -/
structure Float64Flag where
  Name : GoStr
  Aliases : List GoStr
  Usage : GoStr
  EnvVars : List GoStr
  FilePath : GoStr
  Required : Bool
  Hidden : Bool
  Value : Float
  DefaultText : GoStr
  Destination : Option Float
  HasBeenSet : Bool

/-- `DurationFlag` from `flag_duration.go`; a `time.Duration` is an `int64`
count of nanoseconds. -/
structure DurationFlag where
  Name : GoStr
  Aliases : List GoStr
  Usage : GoStr
  EnvVars : List GoStr
  FilePath : GoStr
  Required : Bool
  Hidden : Bool
  Value : Int
  DefaultText : GoStr
  Destination : Option Int
  HasBeenSet : Bool
deriving DecidableEq

/-- `UintSlice` from `flag_uint_slice.go`: a `[]uint` plus the
`hasBeenSet` marker. -/
structure UintSlice where
  slice : List Nat
  hasBeenSet : Bool
deriving DecidableEq

/-- `UintSliceFlag` from `flag_uint_slice.go` (it has no `Destination`
field); `Value` is a possibly-nil pointer to a `UintSlice`. -/
structure UintSliceFlag where
  Name : GoStr
  Aliases : List GoStr
  Usage : GoStr
  EnvVars : List GoStr
  FilePath : GoStr
  Required : Bool
  Hidden : Bool
  Value : Option UintSlice
  DefaultText : GoStr
  HasBeenSet : Bool
deriving DecidableEq

/-- `IntFlag.TakesValue` returns `true` (source: `return true`). -/
def IntFlag.TakesValue (_ : IntFlag) : Bool := true

/-- `UintFlag.TakesValue` returns `true` (source: `return true`). -/
def UintFlag.TakesValue (_ : UintFlag) : Bool := true

/-- `Float64Flag.TakesValue` as written in `flag_float64.go`: `return
false`. -/
def Float64Flag.TakesValue (_ : Float64Flag) : Bool := false

/-- `DurationFlag.TakesValue` returns `true` (source: `return true`). -/
def DurationFlag.TakesValue (_ : DurationFlag) : Bool := true

/-- `UintSliceFlag.TakesValue` returns `true` (source: `return true`). -/
def UintSliceFlag.TakesValue (_ : UintSliceFlag) : Bool := true

/-- `IntFlag.Names`. -/
def IntFlag.Names (f : IntFlag) : List GoStr := flagNames f.Name f.Aliases

/-- `UintFlag.Names`. -/
def UintFlag.Names (f : UintFlag) : List GoStr := flagNames f.Name f.Aliases

/-- `Float64Flag.Names`. -/
def Float64Flag.Names (f : Float64Flag) : List GoStr := flagNames f.Name f.Aliases

/-- `UintSliceFlag.Names`. -/
def UintSliceFlag.Names (f : UintSliceFlag) : List GoStr := flagNames f.Name f.Aliases

/-- `IntFlag.Apply`: resolve from environment/file, parse with
`strconv.ParseInt(val, 10, 64)`, record value and `HasBeenSet` or fail with
the conversion error.  The final registration loop only copies `f.Value`
into the target `FlagSet` (`set.Int` / `set.IntVar`) and mutates no field
of the flag, so the flag itself is returned unchanged by it. -/
def IntFlag.Apply (f : IntFlag) (env files : EnvMap) : Except ConvError IntFlag :=
  match flagFromEnvOrFile f.EnvVars f.FilePath env files with
  | some val =>
    if val ≠ [] then
      match parseInt val with
      | none =>
        .error ⟨convMsg val (gs "int") f.Name (NumErr.errString ⟨gs "ParseInt", val⟩)⟩
      | some v => .ok { f with Value := v, HasBeenSet := true }
    else .ok f
  | none => .ok f

/-- `UintFlag.Apply`: as `IntFlag.Apply` with `strconv.ParseUint(val, 10,
64)`; its error message says "as int value" exactly as the source does. -/
def UintFlag.Apply (f : UintFlag) (env files : EnvMap) : Except ConvError UintFlag :=
  match flagFromEnvOrFile f.EnvVars f.FilePath env files with
  | some val =>
    if val ≠ [] then
      match parseUint val with
      | none =>
        .error ⟨convMsg val (gs "int") f.Name (NumErr.errString ⟨gs "ParseUint", val⟩)⟩
      | some v => .ok { f with Value := v, HasBeenSet := true }
    else .ok f
  | none => .ok f

/-- Split a token at its first `.` (fractional part of a decimal float). -/
def splitDot : GoStr → GoStr × Option GoStr
  | [] => ([], none)
  | c :: r =>
    if c = '.' then ([], some r)
    else
      match splitDot r with
      | (a, b) => (c :: a, b)

/-- Unsigned decimal part of the model of `strconv.ParseFloat`: digits with
an optional fractional part. -/
def parseFloatMag (t : GoStr) : Option Float :=
  match splitDot t with
  | (a, none) =>
    if a ≠ [] ∧ a.all isDigit then some (Float.ofScientific (parseDigits a) false 0)
    else none
  | (a, some b) =>
    if a ≠ [] ∧ b ≠ [] ∧ a.all isDigit ∧ b.all isDigit then
      some (Float.ofScientific (parseDigits (a ++ b)) true b.length)
    else none

/-- Model of `strconv.ParseFloat(s, 64)` covering the plain decimal forms
(optional sign, digits, optional fraction).  The exotic syntaxes the
library also accepts are rejected; no claim under test exercises them. -/
def parseFloat64 (s : GoStr) : Option Float :=
  match s with
  | [] => none
  | c :: r =>
    if c = '+' then parseFloatMag r
    else if c = '-' then (parseFloatMag r).map fun x => -x
    else parseFloatMag s

/-- `Float64Flag.Apply`: as `IntFlag.Apply` with `strconv.ParseFloat(val,
64)`. -/
def Float64Flag.Apply (f : Float64Flag) (env files : EnvMap) :
    Except ConvError Float64Flag :=
  match flagFromEnvOrFile f.EnvVars f.FilePath env files with
  | some val =>
    if val ≠ [] then
      match parseFloat64 val with
      | none =>
        .error ⟨convMsg val (gs "float64") f.Name (NumErr.errString ⟨gs "ParseFloat", val⟩)⟩
      | some v => .ok { f with Value := v, HasBeenSet := true }
    else .ok f
  | none => .ok f

def fi9 : IntFlag :=
  { Name := gs "n", Aliases := [], Usage := [], EnvVars := [gs "CLI_N"],
    FilePath := [], Required := false, Hidden := false, Value := 3,
    DefaultText := [], Destination := none, HasBeenSet := false }

def ff9 : Float64Flag :=
  { Name := gs "r", Aliases := [], Usage := [], EnvVars := [gs "CLI_R"],
    FilePath := [], Required := false, Hidden := false, Value := 0,
    DefaultText := [], Destination := none, HasBeenSet := false }

def fu9 : UintFlag :=
  { Name := gs "u", Aliases := [], Usage := [], EnvVars := [gs "CLI_U"],
    FilePath := [], Required := false, Hidden := false, Value := 5,
    DefaultText := [], Destination := none, HasBeenSet := false }

/-- Decimal digit string of a natural number, as `strconv.FormatUint`
(used by `json.Marshal` for `uint` elements). -/
def natDigits (n : Nat) : GoStr :=
  if n < 10 then [Char.ofNat (48 + n)]
  else natDigits (n / 10) ++ [Char.ofNat (48 + n % 10)]
termination_by n
decreasing_by exact Nat.div_lt_self (by omega) (by omega)

/-- `json.Marshal` of the elements of a non-empty `[]uint`, including the
closing bracket. -/
def marshalItems : List Nat → GoStr
  | [] => [']']
  | [n] => natDigits n ++ [']']
  | n :: m :: ns => natDigits n ++ ',' :: marshalItems (m :: ns)

/-- `json.Marshal` of a `[]uint`: `[` then comma-separated decimal
elements then `]`. -/
def marshalUints (l : List Nat) : GoStr := '[' :: marshalItems l

/-- Longest leading run of digits of a string, with the remainder. -/
def takeDigits : GoStr → GoStr × GoStr
  | [] => ([], [])
  | c :: cs =>
    if isDigit c then
      match takeDigits cs with
      | (d, r) => (c :: d, r)
    else ([], c :: cs)

/-- Parse the element list of a JSON `[]uint` payload after the opening
bracket: digit runs separated by commas, terminated by the closing
bracket, each element within the 64-bit unsigned range.  The structural
`fuel` argument bounds the number of elements; every caller passes at
least the length of the string, which always suffices since each element
consumes at least one character. -/
def parseItemsF : Nat → GoStr → Option (List Nat)
  | 0, _ => none
  | fuel + 1, cs =>
    match takeDigits cs with
    | (ds, rest) =>
      if ds = [] then none
      else if 2 ^ 64 ≤ parseDigits ds then none
      else
        match rest with
        | [']'] => some [parseDigits ds]
        | ',' :: rest2 => (parseItemsF fuel rest2).map fun l => parseDigits ds :: l
        | _ => none

/-- Model of `json.Unmarshal` into a `[]uint`: accepts exactly the strings
`json.Marshal` produces for such slices (the whitespace freedom of full
JSON is immaterial to the claims, which only distinguish success from
failure). -/
def unmarshalUints (s : GoStr) : Option (List Nat) :=
  match s with
  | '[' :: rest => if rest = [']'] then some [] else parseItemsF rest.length rest
  | _ => none

/-- Modelled from the spec: `slPfx`, the defined marker prefix that
identifies a raw value as a JSON-encoded array rather than a
comma-separated scalar list (its source file is not in the extract; its
exact text is immaterial — it is non-empty and starts with a
non-digit). -/
def slPfx : GoStr := gs "sl:::"

/-- `UintSlice.Set` from `flag_uint_slice.go`: on first use clear the slice
and mark it set; a value carrying the serialization prefix is JSON-decoded
with overwrite semantics and its decoding error discarded; otherwise the
value is parsed as a `uint` and appended, or the parse error returned. -/
def UintSlice.Set (f : UintSlice) (value : GoStr) : Except NumErr UintSlice :=
  let f1 : UintSlice := if f.hasBeenSet = false then ⟨[], true⟩ else f
  if hasPref value slPfx then
    match unmarshalUints (replaceOnce value slPfx []) with
    | some l => .ok ⟨l, true⟩
    | none => .ok ⟨f1.slice, true⟩
  else
    match parseUint value with
    | none => .error ⟨gs "ParseUint", value⟩
    | some n => .ok { f1 with slice := f1.slice ++ [n] }

/-- `UintSlice.Serialize`: the marker prefix followed by the JSON form of
the slice. -/
def UintSlice.Serialize (f : UintSlice) : GoStr := slPfx ++ marshalUints f.slice

/-- The `for _, s := range strings.Split(val, ",")` loop of
`UintSliceFlag.Apply`: feed each piece to `UintSlice.Set`, stopping at the
first error. -/
def setPieces (us : UintSlice) : List GoStr → Except NumErr UintSlice
  | [] => .ok us
  | p :: ps =>
    match us.Set p with
    | .error e => .error e
    | .ok us2 => setPieces us2 ps

/-- The registration loop of `UintSliceFlag.Apply` as written in the
source: for every name, `if f.Value != nil { f.Value = &UintSlice{} }`
before `set.Var(f.Value, …)` — i.e. a non-nil `Value` is replaced by a
fresh empty `UintSlice` (the `set.Var` call itself touches no field of the
flag). -/
def UintSliceFlag.regLoop (f : UintSliceFlag) : List GoStr → UintSliceFlag
  | [] => f
  | _ :: rest =>
    UintSliceFlag.regLoop
      (if f.Value ≠ none then { f with Value := some ⟨[], false⟩ } else f) rest

/-- `UintSliceFlag.Apply`: resolve raw text from environment/file, start
from a fresh `UintSlice`, feed it the comma-separated trimmed pieces,
record it in `Value` with `HasBeenSet`, or fail with the conversion error;
then run the registration loop over the flag's names. -/
def UintSliceFlag.Apply (f : UintSliceFlag) (env files : EnvMap) :
    Except ConvError UintSliceFlag :=
  let step : Except ConvError UintSliceFlag :=
    match flagFromEnvOrFile f.EnvVars f.FilePath env files with
    | some val =>
      if val ≠ [] then
        match setPieces ⟨[], false⟩ ((splitComma val).map goTrimSpace) with
        | .error e => .error ⟨convMsg val (gs "uint slice") f.Name e.errString⟩
        | .ok us => .ok { f with Value := some us, HasBeenSet := true }
      else .ok f
    | none => .ok f
  match step with
  | .error e => .error e
  | .ok f1 => .ok (f1.regLoop f1.Names)

def c1Flag : UintSliceFlag :=
  { Name := gs "n", Aliases := [], Usage := [], EnvVars := [gs "E"],
    FilePath := [], Required := false, Hidden := false, Value := none,
    DefaultText := [], HasBeenSet := false }

def c1Env : EnvMap := [(gs "E", gs "1,2,3")]

def c1IntFlag : IntFlag :=
  { Name := gs "m", Aliases := [], Usage := [], EnvVars := [gs "E7"],
    FilePath := [], Required := false, Hidden := false, Value := 0,
    DefaultText := [], Destination := none, HasBeenSet := false }

theorem splitShortOptions_ne_single {set : FlagSet} {a : GoStr}
    (h : (splitShortOptions set a).length ≠ 1) :
    isSplittable a = true ∧
      splitShortOptions set a = (a.drop 1).map fun c => ['-', c] := by
  by_cases hsp : isSplittable a = true
  · by_cases hex : shortFlagsExists set a = true
    · exact ⟨hsp, by simp [splitShortOptions, hsp, hex]⟩
    · exact absurd (by simp [splitShortOptions, hsp, hex] :
        (splitShortOptions set a).length = 1) h
  · exact absurd (by simp [splitShortOptions, hsp] :
      (splitShortOptions set a).length = 1) h

theorem isSplittable_len_two {t : GoStr} (h : t.length = 2) :
    isSplittable t = false := by
  simp [isSplittable, h]

theorem findAndSplit_decrease {set : FlagSet} {trimmed : GoStr} :
    ∀ {args newArgs : List GoStr},
      findAndSplit set trimmed args = .split newArgs →
      countSplittable newArgs < countSplittable args := by
  intro args
  induction args with
  | nil => intro newArgs h; simp [findAndSplit] at h
  | cons a rest ih =>
    intro newArgs h
    rw [findAndSplit] at h
    by_cases hm : trimPref a (gs "-") = trimmed
    · rw [if_pos hm] at h
      by_cases hl : (splitShortOptions set a).length = 1
      · rw [if_pos hl] at h; cases h
      · rw [if_neg hl] at h
        cases h
        obtain ⟨hsp, heq⟩ := splitShortOptions_ne_single hl
        have hzero : countSplittable (splitShortOptions set a) = 0 := by
          rw [countSplittable, List.countP_eq_zero]
          intro t ht
          rw [heq] at ht
          obtain ⟨c, _, rfl⟩ := List.mem_map.mp ht
          simp [isSplittable_len_two]
        calc countSplittable (splitShortOptions set a ++ rest)
            = countSplittable (splitShortOptions set a) + countSplittable rest := by
              simp [countSplittable, List.countP_append]
          _ = countSplittable rest := by rw [hzero]; omega
          _ < countSplittable (a :: rest) := by
              simp [countSplittable, List.countP_cons, hsp]
    · rw [if_neg hm] at h
      cases hr : findAndSplit set trimmed rest with
      | notFound => rw [hr] at h; cases h
      | noSplit => rw [hr] at h; cases h
      | split ns =>
        rw [hr] at h
        cases h
        have hlt := ih hr
        simp only [countSplittable, List.countP_cons] at hlt ⊢
        omega

theorem trimPref_goErrString (e : GoError) :
    trimPref (goErrString e) defaultPfx = goErrString e := by
  cases e <;> rfl

theorem parseIter_ok {set set1 : FlagSet} {args : List GoStr}
    (h : goParse set args = (set1, none)) (ip : IterativeParser) (sc : Bool) :
    parseIter set ip args sc = (set1, none) := by
  rw [parseIter.eq_def, h]

theorem parseIter_ret {set set1 : FlagSet} {args : List GoStr} {e : GoError}
    (h : goParse set args = (set1, some e)) (ip : IterativeParser) (sc : Bool) :
    parseIter set ip args sc
      = (set1, if ip.useShortOptionHandling = false ∧ sc then none else some e) := by
  rw [parseIter.eq_def, h]
  by_cases hu : ip.useShortOptionHandling = false
  · by_cases hsc : sc = true
    · simp [hu, hsc]
    · simp [hu, hsc]
  · simp [hu, trimPref_goErrString e]

/-- Claim C2 counterexample: with short-option handling enabled, `parseIter`
invoked with `shellComplete = true` on the unknown flag `-x` (no flags
registered) returns the parse error instead of success, refuting the claim
that shell-completion mode turns every parse failure into success. -/
theorem shellComplete_error_leaks :
    (parseIter fsNone ⟨true, .ok fsNone⟩ [gs "-x"] true).2
      = some (.notDefined (gs "x")) := by
  have h : goParse fsNone [gs "-x"] = (fsNone, some (.notDefined (gs "x"))) := by decide
  rw [parseIter_ret h]
  rfl

/-- Claim C2 (amended): with `shellComplete = true`, `parseIter` reports
success whenever short-option handling is disabled or the underlying parse
of the tokens succeeds; parse failures reaching the short-option retry path
are still returned even in shell-completion mode. -/
theorem shellComplete_success_cases (set : FlagSet) (ip : IterativeParser)
    (args : List GoStr)
    (h : ip.useShortOptionHandling = false ∨ (goParse set args).2 = none) :
    (parseIter set ip args true).2 = none := by
  rcases hp : goParse set args with ⟨set1, err?⟩
  cases err? with
  | none => rw [parseIter_ok hp]
  | some e =>
    rcases h with h | h
    · rw [parseIter_ret hp]
      simp [h]
    · rw [hp] at h
      simp at h

/-- Witness for the amended claim C2 at a concrete input: short-option
handling disabled, unknown flag `-x`, shell-completion mode reports
success. -/
theorem shellComplete_success_cases_w :
    (parseIter fsNone ⟨false, .ok fsNone⟩ [gs "-x"] true).2 = none :=
  shellComplete_success_cases fsNone ⟨false, .ok fsNone⟩ [gs "-x"] (Or.inl rfl)

/-- Claim C4: with boolean flags `i` and `t` registered and short-option
handling enabled, parsing `["-it"]` is NOT equivalent to parsing
`["-i", "-t"]`: the bundled form returns the unknown-flag error with
neither flag set (the splitting trigger matches the message prefix
"flag provided but not default: -" while Go's parser says "defined"),
whereas the separated form succeeds and sets both flags to true. -/
theorem bundled_short_options_not_split :
    parseIter fsIT ipIT [gs "-it"] false = (fsIT, some (.notDefined (gs "it"))) ∧
    (parseIter fsIT ipIT [gs "-i", gs "-t"] false).2 = none ∧
    (parseIter fsIT ipIT [gs "-i", gs "-t"] false).1.getBool (gs "i") = true ∧
    (parseIter fsIT ipIT [gs "-i", gs "-t"] false).1.getBool (gs "t") = true := by
  have h1 : goParse fsIT [gs "-it"] = (fsIT, some (.notDefined (gs "it"))) := by decide
  have h2 : goParse fsIT [gs "-i", gs "-t"]
      = (⟨[gs "i", gs "t"], [(gs "t", true), (gs "i", true)]⟩, none) := by decide
  refine ⟨?_, ?_, ?_, ?_⟩
  · rw [parseIter_ret h1]
    rfl
  · rw [parseIter_ok h2]
  · rw [parseIter_ok h2]
    decide
  · rw [parseIter_ok h2]
    decide

/-- Claim C5: whenever the underlying parse of the tokens fails — in
particular on a bundled token such as `-ix` containing a character that
names no registered flag — `parseIter` applies no split and returns the
original parse error unchanged, with the flag set exactly as the failed
parse left it. -/
theorem parse_error_returned_unchanged (set set1 : FlagSet) (ip : IterativeParser)
    (args : List GoStr) (e : GoError)
    (h : goParse set args = (set1, some e)) :
    parseIter set ip args false = (set1, some e) := by
  rw [parseIter_ret h]
  simp

/-- Witness for claim C5: parsing `["-ix"]` with only `i` registered
returns the original unknown-flag error unchanged. -/
theorem parse_error_returned_unchanged_w :
    parseIter fsI ipI [gs "-ix"] false = (fsI, some (.notDefined (gs "ix"))) :=
  parse_error_returned_unchanged fsI fsI ipI [gs "-ix"] (.notDefined (gs "ix"))
    (by decide)

/-- Claim C6: a token of length at most 2, a token with a double-dash
prefix, or a token not starting with a dash is never a candidate for
short-option splitting: `splitShortOptions` returns it unchanged as a
one-element sequence, for every flag set. -/
theorem unsplittable_tokens_kept (set : FlagSet) (arg : GoStr)
    (h : arg.length ≤ 2 ∨ hasPref arg (gs "--") = true ∨ hasPref arg (gs "-") = false) :
    splitShortOptions set arg = [arg] := by
  have hsp : isSplittable arg = false := by
    rcases h with h | h | h
    · have hd : decide (arg.length > 2) = false := by
        simp
        omega
      simp [isSplittable, hd]
    · simp [isSplittable, h]
    · simp [isSplittable, h]
  simp [splitShortOptions, hsp]

/-- Witness for claim C6: neither `-i` (length 2) nor `--it` (double dash)
is split, even with `i` and `t` registered. -/
theorem unsplittable_tokens_kept_w :
    splitShortOptions fsIT (gs "-i") = [gs "-i"] ∧
    splitShortOptions fsIT (gs "--it") = [gs "--it"] :=
  ⟨unsplittable_tokens_kept fsIT (gs "-i") (Or.inl (by decide)),
   unsplittable_tokens_kept fsIT (gs "--it") (Or.inr (Or.inl (by decide)))⟩

/-- Claim C7: whenever `splitShortOptions` actually splits a token (its
result is not a singleton) every replacement token has length exactly 2 —
hence is itself unsplittable — and a successful in-place substitution by
the scan loop (`findAndSplit … = split`) strictly decreases the number of
splittable tokens.  This measure is exactly the one `parseIter` recurses
on, so the retry loop terminates after at most as many iterations as there
are bundled multi-character tokens; the `noSplit` and `notFound` outcomes
return immediately by definition of `parseIter`. -/
theorem split_decreases_splittable_count (set : FlagSet) (arg trimmed : GoStr)
    (args newArgs : List GoStr)
    (hne : (splitShortOptions set arg).length ≠ 1)
    (hfs : findAndSplit set trimmed args = .split newArgs) :
    (∀ t ∈ splitShortOptions set arg, t.length = 2) ∧
    countSplittable newArgs < countSplittable args := by
  constructor
  · intro t ht
    obtain ⟨_, heq⟩ := splitShortOptions_ne_single hne
    rw [heq] at ht
    obtain ⟨c, _, rfl⟩ := List.mem_map.mp ht
    rfl
  · exact findAndSplit_decrease hfs

/-- Witness for claim C7: splitting `-it` against flags `i`, `t` yields
length-2 tokens and drops the splittable-token count from 1 to 0. -/
theorem split_decreases_splittable_count_w :
    (∀ t ∈ splitShortOptions fsIT (gs "-it"), t.length = 2) ∧
    countSplittable [gs "-i", gs "-t"] < countSplittable [gs "-it"] :=
  split_decreases_splittable_count fsIT (gs "-it") (gs "it") [gs "-it"]
    [gs "-i", gs "-t"] (by decide) (by decide)

/-- Claim C3: `TakesValue` returns `true` for the integer, unsigned-integer,
duration, and uint-slice flag types, but — contrary to the claim — the
floating-point flag type's `TakesValue` returns `false` in
`flag_float64.go`, even though a float flag consumes a following value
token. -/
theorem takesValue_per_type :
    (∀ f : IntFlag, f.TakesValue = true) ∧
    (∀ f : UintFlag, f.TakesValue = true) ∧
    (∀ f : DurationFlag, f.TakesValue = true) ∧
    (∀ f : UintSliceFlag, f.TakesValue = true) ∧
    (∀ f : Float64Flag, f.TakesValue = false) :=
  ⟨fun _ => rfl, fun _ => rfl, fun _ => rfl, fun _ => rfl, fun _ => rfl⟩

/-- Claim C9: if no raw text is obtained from any environment variable or
fallback file (every source absent, or the text obtained empty), `Apply`
returns the flag completely unchanged — static default in force,
`HasBeenSet` still false — and no error, for the int, float64, and uint
flag types. -/
theorem apply_no_source_keeps_default (fi : IntFlag) (ff : Float64Flag)
    (fu : UintFlag) (env files : EnvMap)
    (hi : flagFromEnvOrFile fi.EnvVars fi.FilePath env files = none ∨
          flagFromEnvOrFile fi.EnvVars fi.FilePath env files = some [])
    (hf : flagFromEnvOrFile ff.EnvVars ff.FilePath env files = none ∨
          flagFromEnvOrFile ff.EnvVars ff.FilePath env files = some [])
    (hu : flagFromEnvOrFile fu.EnvVars fu.FilePath env files = none ∨
          flagFromEnvOrFile fu.EnvVars fu.FilePath env files = some []) :
    IntFlag.Apply fi env files = .ok fi ∧
    Float64Flag.Apply ff env files = .ok ff ∧
    UintFlag.Apply fu env files = .ok fu := by
  refine ⟨?_, ?_, ?_⟩
  · rcases hi with h | h <;> simp [IntFlag.Apply, h]
  · rcases hf with h | h <;> simp [Float64Flag.Apply, h]
  · rcases hu with h | h <;> simp [UintFlag.Apply, h]

/-- Witness for claim C9: with an empty environment and no fallback file,
`Apply` leaves each of the three concrete flags untouched. -/
theorem apply_no_source_keeps_default_w :
    IntFlag.Apply fi9 [] [] = .ok fi9 ∧
    Float64Flag.Apply ff9 [] [] = .ok ff9 ∧
    UintFlag.Apply fu9 [] [] = .ok fu9 :=
  apply_no_source_keeps_default fi9 ff9 fu9 [] []
    (Or.inl rfl) (Or.inl rfl) (Or.inl rfl)

/-- Claim C1: environment resolution works as claimed for the scalar flag
types (the int flag with `E7=7` resolves to `7` with `HasBeenSet` true),
but NOT for the uint-slice flag: with `E=1,2,3` its `Apply` parses
`[1, 2, 3]` into a fresh `UintSlice` and then the registration loop —
`if f.Value != nil { f.Value = &UintSlice{} }` — discards it, leaving the
flag's value **empty** while `HasBeenSet` is `true`. -/
theorem apply_env_uintslice_value_lost :
    IntFlag.Apply c1IntFlag [(gs "E7", gs "7")] []
      = .ok { c1IntFlag with Value := 7, HasBeenSet := true } ∧
    UintSliceFlag.Apply c1Flag c1Env []
      = .ok { c1Flag with Value := some ⟨[], false⟩, HasBeenSet := true } :=
  ⟨rfl, rfl⟩

theorem char_digit_toNat {d : Nat} (h : d < 10) :
    (Char.ofNat (48 + d)).toNat = 48 + d := by
  interval_cases d <;> decide

theorem isDigit_char_digit {d : Nat} (h : d < 10) :
    isDigit (Char.ofNat (48 + d)) = true := by
  interval_cases d <;> decide

theorem natDigits_all_digits (n : Nat) : ∀ c ∈ natDigits n, isDigit c = true := by
  induction n using Nat.strong_induction_on with
  | _ n ih =>
    rw [natDigits.eq_def]
    by_cases h : n < 10
    · rw [if_pos h]
      intro c hc
      simp only [List.mem_singleton] at hc
      subst hc
      exact isDigit_char_digit h
    · rw [if_neg h]
      intro c hc
      rcases List.mem_append.mp hc with hc | hc
      · exact ih (n / 10) (Nat.div_lt_self (by omega) (by omega)) c hc
      · simp only [List.mem_singleton] at hc
        subst hc
        exact isDigit_char_digit (Nat.mod_lt _ (by omega))

theorem natDigits_ne_nil (n : Nat) : natDigits n ≠ [] := by
  rw [natDigits.eq_def]
  by_cases h : n < 10
  · simp [h]
  · simp [h]

theorem foldl_natDigits (n : Nat) :
    ∀ a : Nat, (natDigits n).foldl (fun x c => x * 10 + (c.toNat - 48)) a
      = a * 10 ^ (natDigits n).length + n := by
  induction n using Nat.strong_induction_on with
  | _ n ih =>
    intro a
    rw [natDigits.eq_def]
    by_cases h : n < 10
    · rw [if_pos h]
      simp only [List.foldl]
      rw [char_digit_toNat h]
      simp only [List.length_cons, List.length_nil, pow_one]
      omega
    · rw [if_neg h]
      rw [List.foldl_append]
      rw [ih (n / 10) (Nat.div_lt_self (by omega) (by omega)) a]
      have hm : n % 10 < 10 := Nat.mod_lt _ (by omega)
      simp only [List.foldl]
      rw [char_digit_toNat hm]
      rw [List.length_append]
      simp only [List.length_cons, List.length_nil]
      have h48 : 48 + n % 10 - 48 = n % 10 := by omega
      rw [h48, pow_succ]
      have key : n / 10 * 10 + n % 10 = n := by omega
      calc (a * 10 ^ (natDigits (n / 10)).length + n / 10) * 10 + n % 10
          = a * (10 ^ (natDigits (n / 10)).length * 10) + (n / 10 * 10 + n % 10) := by
            ring
        _ = a * (10 ^ (natDigits (n / 10)).length * 10) + n := by rw [key]

theorem parseDigits_natDigits (n : Nat) : parseDigits (natDigits n) = n := by
  have := foldl_natDigits n 0
  simpa [parseDigits] using this

theorem takeDigits_digits_append (ds rest : GoStr)
    (h1 : ∀ c ∈ ds, isDigit c = true)
    (h2 : ∀ r rs, rest = r :: rs → isDigit r = false) :
    takeDigits (ds ++ rest) = (ds, rest) := by
  induction ds with
  | nil =>
    simp only [List.nil_append]
    cases rest with
    | nil => rfl
    | cons r rs => simp [takeDigits, h2 r rs rfl]
  | cons c cs ih =>
    have hc := h1 c (List.mem_cons_self c cs)
    have ih2 := ih fun x hx => h1 x (List.mem_cons_of_mem c hx)
    rw [List.cons_append, takeDigits]
    simp [hc, ih2]

theorem marshalItems_cons_ne (n : Nat) (l : List Nat) :
    marshalItems (n :: l) ≠ [']'] := by
  intro h
  have hne := natDigits_ne_nil n
  have hpos : 0 < (natDigits n).length := List.length_pos.mpr hne
  cases l with
  | nil =>
    simp only [marshalItems] at h
    have hl := congrArg List.length h
    rw [List.length_append] at hl
    simp only [List.length_cons, List.length_nil] at hl
    omega
  | cons m ms =>
    simp only [marshalItems] at h
    have hl := congrArg List.length h
    rw [List.length_append] at hl
    simp only [List.length_cons, List.length_nil] at hl
    omega

theorem parseItemsF_marshalItems :
    ∀ (l : List Nat) (n : Nat) (fuel : Nat), l.length < fuel →
      (∀ m ∈ n :: l, m < 2 ^ 64) →
      parseItemsF fuel (marshalItems (n :: l)) = some (n :: l) := by
  intro l
  induction l with
  | nil =>
    intro n fuel hf hb
    match fuel, hf with
    | f + 1, _ =>
    have ht : takeDigits (natDigits n ++ [']']) = (natDigits n, [']']) :=
      takeDigits_digits_append _ _ (natDigits_all_digits n)
        (fun r rs h => by injection h with h1 _; subst h1; decide)
    have hbn : ¬ 2 ^ 64 ≤ parseDigits (natDigits n) := by
      rw [parseDigits_natDigits]
      have := hb n (by simp)
      omega
    simp only [marshalItems, parseItemsF, ht, if_neg (natDigits_ne_nil n), if_neg hbn]
    rw [parseDigits_natDigits]
  | cons m ms ih =>
    intro n fuel hf hb
    match fuel, hf with
    | f + 1, hf2 =>
    have ht : takeDigits (natDigits n ++ ',' :: marshalItems (m :: ms))
        = (natDigits n, ',' :: marshalItems (m :: ms)) :=
      takeDigits_digits_append _ _ (natDigits_all_digits n)
        (fun r rs h => by injection h with h1 _; subst h1; decide)
    have hbn : ¬ 2 ^ 64 ≤ parseDigits (natDigits n) := by
      rw [parseDigits_natDigits]
      have := hb n (by simp)
      omega
    have hrec : parseItemsF f (marshalItems (m :: ms)) = some (m :: ms) := by
      apply ih m f (by simp only [List.length_cons] at hf2; omega)
      intro x hx
      exact hb x (List.mem_cons_of_mem n hx)
    simp only [marshalItems, parseItemsF, ht, if_neg (natDigits_ne_nil n), if_neg hbn,
      hrec, Option.map_some']
    rw [parseDigits_natDigits]

theorem marshalItems_length_gt : ∀ (l : List Nat) (n : Nat),
    l.length < (marshalItems (n :: l)).length := by
  intro l
  induction l with
  | nil =>
    intro n
    simp [marshalItems]
  | cons m ms ih =>
    intro n
    have h := ih m
    simp only [marshalItems, List.length_append, List.length_cons] at h ⊢
    omega

theorem unmarshal_marshal (l : List Nat) (hb : ∀ m ∈ l, m < 2 ^ 64) :
    unmarshalUints (marshalUints l) = some l := by
  cases l with
  | nil => rfl
  | cons n ns =>
    have hne := marshalItems_cons_ne n ns
    simp only [marshalUints, unmarshalUints, if_neg hne]
    exact parseItemsF_marshalItems ns n _ (marshalItems_length_gt ns n) hb

theorem hasPref_slPfx (rest : GoStr) : hasPref (slPfx ++ rest) slPfx = true := by
  cases rest <;> rfl

theorem replaceOnce_slPfx (rest : GoStr) :
    replaceOnce (slPfx ++ rest) slPfx [] = rest := by
  cases rest <;> rfl

theorem parseUint_not_slPfx {v : GoStr} {n : Nat} (h : parseUint v = some n) :
    hasPref v slPfx = false := by
  cases v with
  | nil => simp [parseUint] at h
  | cons c cs =>
    have hall : (c :: cs).all isDigit = true := by
      by_cases hd : (c :: cs).all isDigit
      · exact hd
      · simp [parseUint, hd] at h
    have hc : isDigit c = true := by
      have := List.all_eq_true.mp hall c (List.mem_cons_self c cs)
      simpa using this
    have hcs : c ≠ 's' := by
      intro he
      rw [he] at hc
      exact absurd hc (by decide)
    show hasPref (c :: cs) ('s' :: 'l' :: ':' :: ':' :: ':' :: []) = false
    simp [hasPref, hcs]

/-- Claim C8: serializing any in-range `uint` sequence and feeding the
result to `UintSlice.Set` reproduces exactly that sequence with overwrite
semantics (the receiving slice's prior contents are discarded), whereas
`Set` with a plain numeric string on a slice whose `hasBeenSet` marker is
already true appends the parsed value to the existing contents. -/
theorem uintslice_serialize_set_round_trip
    (g f f2 : UintSlice) (v : GoStr) (n : Nat)
    (hb : ∀ m ∈ g.slice, m < 2 ^ 64)
    (h2 : f2.hasBeenSet = true) (hv : parseUint v = some n) :
    f.Set g.Serialize = .ok ⟨g.slice, true⟩ ∧
    f2.Set v = .ok ⟨f2.slice ++ [n], true⟩ := by
  constructor
  · simp only [UintSlice.Set, UintSlice.Serialize, hasPref_slPfx, replaceOnce_slPfx,
      unmarshal_marshal g.slice hb, if_true]
  · rcases f2 with ⟨sl2, b2⟩
    simp only at h2
    subst h2
    simp [UintSlice.Set, parseUint_not_slPfx hv, hv]

/-- Witness for claim C8: the round trip on `[1, 2, 3]` over a slice
holding `[9]`, and the appending `Set "5"` on an already-set slice holding
`[7]`. -/
theorem uintslice_serialize_set_round_trip_w :
    UintSlice.Set ⟨[9], true⟩ (UintSlice.Serialize ⟨[1, 2, 3], false⟩)
      = .ok ⟨[1, 2, 3], true⟩ ∧
    UintSlice.Set ⟨[7], true⟩ (gs "5") = .ok ⟨[7, 5], true⟩ :=
  uintslice_serialize_set_round_trip ⟨[1, 2, 3], false⟩ ⟨[9], true⟩ ⟨[7], true⟩
    (gs "5") 5 (by decide) rfl (by decide)

/-- Claim C10: on an input that starts with the serialization prefix but
whose remainder fails to deserialize, `UintSlice.Set` discards the failure
(returns no error), still sets the `hasBeenSet` marker, and leaves the
slice with what the failed deserialization left in place (the prior
contents, or the empty slice when the initial first-use clearing ran). -/
theorem uintslice_bad_payload_silent (f : UintSlice) (rest : GoStr)
    (h : unmarshalUints rest = none) :
    f.Set (slPfx ++ rest) = .ok ⟨if f.hasBeenSet then f.slice else [], true⟩ := by
  rcases f with ⟨sl, b⟩
  cases b
  · simp [UintSlice.Set, hasPref_slPfx, replaceOnce_slPfx, h]
  · simp [UintSlice.Set, hasPref_slPfx, replaceOnce_slPfx, h]

/-- Witness for claim C10: `Set` on the prefix followed by the non-JSON
payload "oops" succeeds, keeps the prior contents of the already-set slice
`[4]`, and keeps `hasBeenSet` true. -/
theorem uintslice_bad_payload_silent_w :
    UintSlice.Set ⟨[4], true⟩ (slPfx ++ gs "oops") = .ok ⟨[4], true⟩ := by
  have h := uintslice_bad_payload_silent ⟨[4], true⟩ (gs "oops") rfl
  simpa using h
